import Mathlib

set_option maxRecDepth 100000

/-!
Shallow embedding of stvenx/feishu-messager (src/main.go).

Strings are modelled as lists of characters (`List Char`); the Go
standard-library routines used by the program (strings.Split,
strings.SplitN, strings.TrimSpace, strings.ToUpper,
strings.ReplaceAll, json.Unmarshal for the two target types that
appear in the program) are modelled explicitly below, followed by
direct transliterations of the program's own functions `parseUsers`
and `getEnv` and of the response check at the end of `main`.
-/

/-- Whitespace predicate used by Go strings.TrimSpace (unicode.IsSpace),
restricted to the ASCII whitespace characters: space, tab, newline,
vertical tab, form feed, carriage return. -/
def isSpaceChar (c : Char) : Bool :=
  c == ' ' || c == '\t' || c == '\n' || c == Char.ofNat 11 || c == Char.ofNat 12 || c == '\r'

/-- Go strings.TrimSpace: remove leading and trailing whitespace. -/
def trimSpace (l : List Char) : List Char :=
  ((l.dropWhile isSpaceChar).reverse.dropWhile isSpaceChar).reverse

/-- Go strings.Split(s, sep) for a one-character separator: split the string
at every occurrence of the separator; Split of the empty string yields a
one-element list holding the empty string. -/
def splitChar (sep : Char) : List Char → List (List Char)
  | [] => [[]]
  | c :: cs =>
    match splitChar sep cs with
    | [] => [[]]
    | r :: rs => if c = sep then [] :: r :: rs else (c :: r) :: rs

/-- Go strings.SplitN(pair, sep, 2) for separator ':': `none` when the string
holds no colon (SplitN returns a one-element slice, which the program skips),
otherwise the part before the first colon and everything after it (a colon
inside the second part is preserved, not further split). -/
def splitFirstColon : List Char → Option (List Char × List Char)
  | [] => none
  | c :: cs =>
    if c = ':' then some ([], cs)
    else
      match splitFirstColon cs with
      | none => none
      | some (a, b) => some (c :: a, b)

/-- The mention token built at src/main.go:229 by
fmt.Sprintf with verb %s: the two arguments are embedded verbatim
(no XML escaping), and the token carries one trailing space. -/
def mentionToken (openID username : List Char) : List Char :=
  ("<at user_id=\"").data ++ openID ++ ("\">").data ++ username ++ ("</at> ").data

/-- Loop body of the mapping loop in parseUsers (src/main.go:212-231):
trim the piece, skip it when empty, split at the first colon, skip when no
colon is present, trim both parts, and emit a mention token when the
username is in the login set; `isLogin` is the membership test of the
Go map loginSet. -/
def pairToken (isLogin : List Char → Bool) (pair : List Char) : List Char :=
  if trimSpace pair = [] then []
  else
    match splitFirstColon (trimSpace pair) with
    | none => []
    | some (u, i) =>
      if isLogin (trimSpace u) then mentionToken (trimSpace i) (trimSpace u) else []

/-- The whole mapping loop: the strings.Builder accumulates the per-piece
tokens in piece order. -/
def emitAll (isLogin : List Char → Bool) : List (List Char) → List Char
  | [] => []
  | p :: ps => pairToken isLogin p ++ emitAll isLogin ps

/-! ### JSON values and the syntactic parser (model of encoding/json syntax checking) -/

/-- JSON values; numbers keep their source characters (the program never
reads a numeric value out of the assignee data, only the kind matters
for decoding). -/
inductive Json where
  | null : Json
  | bool : Bool → Json
  | num : List Char → Json
  | str : List Char → Json
  | arr : List Json → Json
  | obj : List (List Char × Json) → Json

/-- JSON insignificant whitespace (RFC 8259, as accepted by encoding/json). -/
def isJsonWs (c : Char) : Bool :=
  c == ' ' || c == '\t' || c == '\n' || c == '\r'

/-- Skip insignificant whitespace. -/
def skipWs (l : List Char) : List Char := l.dropWhile isJsonWs

/-- Value of a hexadecimal digit. -/
def hexVal (c : Char) : Option Nat :=
  if c.isDigit then some (c.toNat - 48)
  else if 'a' ≤ c ∧ c ≤ 'f' then some (c.toNat - 87)
  else if 'A' ≤ c ∧ c ≤ 'F' then some (c.toNat - 55)
  else none

/-- Single-character string escapes of JSON. -/
def escChar (c : Char) : Option Char :=
  if c = '"' then some '"'
  else if c = '\\' then some '\\'
  else if c = '/' then some '/'
  else if c = 'b' then some (Char.ofNat 8)
  else if c = 'f' then some (Char.ofNat 12)
  else if c = 'n' then some '\n'
  else if c = 'r' then some '\r'
  else if c = 't' then some '\t'
  else none

/-- Parse the body of a JSON string after the opening quote; yields the
decoded characters and the rest of the input after the closing quote. -/
def parseStringBody : List Char → Option (List Char × List Char)
  | [] => none
  | '"' :: rest => some ([], rest)
  | '\\' :: 'u' :: h1 :: h2 :: h3 :: h4 :: rest =>
    match hexVal h1, hexVal h2, hexVal h3, hexVal h4 with
    | some a, some b, some c, some d =>
      match parseStringBody rest with
      | some (s, r) => some (Char.ofNat (((a * 16 + b) * 16 + c) * 16 + d) :: s, r)
      | none => none
    | _, _, _, _ => none
  | '\\' :: e :: rest =>
    match escChar e with
    | some c =>
      match parseStringBody rest with
      | some (s, r) => some (c :: s, r)
      | none => none
    | none => none
  | c :: rest =>
    if c.toNat < 32 then none
    else
      match parseStringBody rest with
      | some (s, r) => some (c :: s, r)
      | none => none

/-- Longest digit run at the head of the input, and the rest. -/
def digitSpan (l : List Char) : List Char × List Char :=
  (l.takeWhile Char.isDigit, l.dropWhile Char.isDigit)

/-- Integer part of a JSON number: a single 0, or a nonzero digit followed
by digits. -/
def parseIntPart : List Char → Option (List Char × List Char)
  | [] => none
  | '0' :: rest => some (['0'], rest)
  | c :: rest =>
    if c.isDigit then some (digitSpan (c :: rest)) else none

/-- Optional fraction part of a JSON number. -/
def parseFracPart : List Char → Option (List Char × List Char)
  | '.' :: r =>
    let p := digitSpan r
    if p.1 = [] then none else some ('.' :: p.1, p.2)
  | l => some ([], l)

/-- Optional exponent part of a JSON number. -/
def parseExpPart : List Char → Option (List Char × List Char)
  | [] => some ([], [])
  | c :: r =>
    if c = 'e' ∨ c = 'E' then
      match r with
      | [] => none
      | s :: r2 =>
        if s = '+' ∨ s = '-' then
          let p := digitSpan r2
          if p.1 = [] then none else some (c :: s :: p.1, p.2)
        else
          let p := digitSpan (s :: r2)
          if p.1 = [] then none else some (c :: p.1, p.2)
    else some ([], c :: r)

/-- JSON number after an optional minus sign. -/
def parseNumCore (l : List Char) : Option (List Char × List Char) :=
  match parseIntPart l with
  | none => none
  | some (ip, r1) =>
    match parseFracPart r1 with
    | none => none
    | some (fp, r2) =>
      match parseExpPart r2 with
      | none => none
      | some (ep, r3) => some (ip ++ fp ++ ep, r3)

/-- JSON number token (optional leading minus, integer, fraction, exponent). -/
def parseNumberChars (l : List Char) : Option (List Char × List Char) :=
  match l with
  | '-' :: r =>
    match parseNumCore r with
    | some (n, rest) => some ('-' :: n, rest)
    | none => none
  | _ => parseNumCore l

mutual

/-- Recursive-descent JSON value parser, fuel-indexed. -/
def parseValue : Nat → List Char → Option (Json × List Char)
  | 0, _ => none
  | fuel + 1, l =>
    match skipWs l with
    | 'n' :: 'u' :: 'l' :: 'l' :: rest => some (Json.null, rest)
    | 't' :: 'r' :: 'u' :: 'e' :: rest => some (Json.bool true, rest)
    | 'f' :: 'a' :: 'l' :: 's' :: 'e' :: rest => some (Json.bool false, rest)
    | '"' :: rest =>
      match parseStringBody rest with
      | some (s, r) => some (Json.str s, r)
      | none => none
    | '[' :: rest => parseArrItems fuel rest
    | '{' :: rest => parseObjItems fuel rest
    | l2 =>
      match parseNumberChars l2 with
      | some (n, r) => some (Json.num n, r)
      | none => none

/-- After an opening bracket: an empty array, or the element loop. -/
def parseArrItems : Nat → List Char → Option (Json × List Char)
  | 0, _ => none
  | fuel + 1, l =>
    match skipWs l with
    | ']' :: rest => some (Json.arr [], rest)
    | _ => parseArrLoop fuel l []

/-- Array element loop: value, then comma and repeat, or closing bracket. -/
def parseArrLoop : Nat → List Char → List Json → Option (Json × List Char)
  | 0, _, _ => none
  | fuel + 1, l, acc =>
    match parseValue fuel l with
    | none => none
    | some (v, r) =>
      match skipWs r with
      | ',' :: rest => parseArrLoop fuel rest (acc ++ [v])
      | ']' :: rest => some (Json.arr (acc ++ [v]), rest)
      | _ => none

/-- After an opening brace: an empty object, or the member loop. -/
def parseObjItems : Nat → List Char → Option (Json × List Char)
  | 0, _ => none
  | fuel + 1, l =>
    match skipWs l with
    | '}' :: rest => some (Json.obj [], rest)
    | _ => parseObjLoop fuel l []

/-- Object member loop: string key, colon, value, then comma and repeat,
or closing brace. -/
def parseObjLoop : Nat → List Char → List (List Char × Json) → Option (Json × List Char)
  | 0, _, _ => none
  | fuel + 1, l, acc =>
    match skipWs l with
    | '"' :: rest =>
      match parseStringBody rest with
      | none => none
      | some (k, r1) =>
        match skipWs r1 with
        | ':' :: r2 =>
          match parseValue fuel r2 with
          | none => none
          | some (v, r3) =>
            match skipWs r3 with
            | ',' :: r4 => parseObjLoop fuel r4 (acc ++ [(k, v)])
            | '}' :: r4 => some (Json.obj (acc ++ [(k, v)]), r4)
            | _ => none
        | _ => none
    | _ => none

end

/-- Whole-input JSON parse, as json.Unmarshal validates it: one value,
surrounded only by insignificant whitespace; anything else is a syntax
error (`none`). The fuel bound exceeds the maximal possible nesting. -/
def parseJsonTop (l : List Char) : Option Json :=
  match parseValue (2 * l.length + 4) l with
  | some (j, rest) => if skipWs rest = [] then some j else none
  | none => none

/-! ### Decoding into the program's Go types -/

/-- The anonymous Go record used for assignees: struct with a single
field Login tagged json:"login" (src/main.go:185-187). -/
structure Assignee where
  login : List Char
deriving DecidableEq

/-- ASCII lower-casing, for encoding/json's case-insensitive key match. -/
def asciiLower (c : Char) : Char :=
  if 'A' ≤ c ∧ c ≤ 'Z' then Char.ofNat (c.toNat + 32) else c

/-- encoding/json matches an object key to the field tag "login"
preferring an exact match but also accepting a case-insensitive match. -/
def keyMatchesLogin (k : List Char) : Bool :=
  k.map asciiLower == ("login").data

/-- Processing of one object member while decoding the assignee record:
a key matching the login tag assigns the field from a JSON string
(a JSON null leaves the field untouched, any other kind is an
UnmarshalTypeError); other keys are ignored. Later duplicates
overwrite, and the first type error makes the whole decode fail. -/
def setLoginField (acc : Option (List Char)) (f : List Char × Json) : Option (List Char) :=
  match acc with
  | none => none
  | some cur =>
    if keyMatchesLogin f.1 then
      match f.2 with
      | Json.str s => some s
      | Json.null => some cur
      | _ => none
    else some cur

/-- json.Unmarshal of one JSON value into struct \x7b Login string \x7d:
null leaves the zero value, an object is decoded member by member,
every other kind is a type error. -/
def decodeAssignee : Json → Option Assignee
  | Json.null => some ⟨[]⟩
  | Json.obj fs => (fs.foldl setLoginField (some [])).map Assignee.mk
  | _ => none

/-- Element-wise decoding of a JSON array into the record slice. -/
def decodeAssigneeList : List Json → Option (List Assignee)
  | [] => some []
  | j :: js =>
    match decodeAssignee j, decodeAssigneeList js with
    | some a, some as => some (a :: as)
    | _, _ => none

/-- json.Unmarshal of one JSON value into []struct \x7b Login string \x7d:
null leaves the nil slice, an array is decoded element-wise, every
other kind is a type error. -/
def decodeAssignees : Json → Option (List Assignee)
  | Json.null => some []
  | Json.arr xs => decodeAssigneeList xs
  | _ => none

/-- First unmarshal attempt of parseUsers (src/main.go:188): the input
string as an array of assignee records. -/
def unmarshalAssignees (s : List Char) : Option (List Assignee) :=
  match parseJsonTop s with
  | none => none
  | some j => decodeAssignees j

/-- Second unmarshal attempt of parseUsers (src/main.go:193): the input
string as a single assignee record. -/
def unmarshalAssignee (s : List Char) : Option Assignee :=
  match parseJsonTop s with
  | none => none
  | some j => decodeAssignee j

/-- The fallback chain of parseUsers (src/main.go:188-199): array decode
first; on failure single-record decode wrapped in a one-element list; on
double failure, nothing. -/
def resolveRecords (s : List Char) : Option (List Assignee) :=
  match unmarshalAssignees s with
  | some as => some as
  | none =>
    match unmarshalAssignee s with
    | some a => some [a]
    | none => none

/-- The loginSet construction (src/main.go:202-207): the non-empty login
values; the Go map is used only for membership, modelled by `memberOf`. -/
def loginsOf (as : List Assignee) : List (List Char) :=
  (as.map Assignee.login).filter (fun l => !l.isEmpty)

/-- Membership test of the Go loginSet map. -/
def memberOf (set : List (List Char)) (u : List Char) : Bool :=
  set.any (fun x => x == u)

/-- parseUsers (src/main.go:179-234) over character lists. -/
def parseUsersL (userMaps assigneesJSON : List Char) : List Char :=
  if userMaps = [] then []
  else if assigneesJSON = [] then []
  else
    match resolveRecords assigneesJSON with
    | none => []
    | some as => emitAll (memberOf (loginsOf as)) (splitChar ',' userMaps)

/-- parseUsers at the Go signature: string to string. -/
def parseUsers (userMaps assigneesJSON : String) : String :=
  String.mk (parseUsersL userMaps.data assigneesJSON.data)

/-! ### getEnv and the response check -/

/-- Go strings.ReplaceAll(key, "-", "_") for one-character patterns. -/
def replaceDash (l : List Char) : List Char :=
  l.map (fun c => if c = '-' then '_' else c)

/-- Go strings.ToUpper, on the ASCII letters the program's keys use. -/
def goToUpper (l : List Char) : List Char :=
  l.map Char.toUpper

/-- The GitHub-Actions-wrapped variable name built at src/main.go:37:
INPUT_ prefix, hyphens replaced by underscores, upper-cased. -/
def inputKeyOf (key : List Char) : List Char :=
  ("INPUT_").data ++ goToUpper (replaceDash key)

/-- getEnv (src/main.go:34-44); the process environment is modelled as a
total function from names to values, empty string meaning unset, exactly
as os.Getenv reports it. -/
def getEnv (env : List Char → List Char) (key : List Char) : List Char :=
  if env (inputKeyOf key) ≠ [] then env (inputKeyOf key)
  else env (goToUpper key)

/-- The decoded response body (src/main.go:27-31); the data field never
influences control flow and is omitted. -/
structure FeishuResponse where
  code : Int
  msg : List Char
deriving DecidableEq

/-- Outcome of the run: exit 0 with a success notice, or exit 1 with an
error line carrying the embedded code and message. -/
inductive RunOutcome where
  | success : RunOutcome
  | fatal : Int → List Char → RunOutcome
deriving DecidableEq

/-- The response check ending main (src/main.go:168-173): anything other
than HTTP 200 with embedded code 0 is fatal. -/
def checkResponse (statusCode : Nat) (resp : FeishuResponse) : RunOutcome :=
  if statusCode ≠ 200 ∨ resp.code ≠ 0 then RunOutcome.fatal resp.code resp.msg
  else RunOutcome.success

/-- Process exit status for an outcome. -/
def exitCodeOf : RunOutcome → Nat
  | RunOutcome.success => 0
  | RunOutcome.fatal _ _ => 1

/-! ### Helper lemmas -/

/-- dropWhile never lengthens a list. -/
theorem length_dropWhile_le_self (p : Char → Bool) (l : List Char) :
    (l.dropWhile p).length ≤ l.length := by
  induction l with
  | nil => simp
  | cons x xs ih =>
    rw [List.dropWhile_cons]
    by_cases h : p x = true
    · rw [if_pos h]; exact Nat.le_trans ih (Nat.le_succ _)
    · rw [if_neg (by simpa using h)]

/-- A list is its dropped part preceded by some dropped elements. -/
theorem exists_dropWhile_append (p : Char → Bool) (l : List Char) :
    ∃ c, l = c ++ l.dropWhile p := by
  induction l with
  | nil => exact ⟨[], rfl⟩
  | cons x xs ih =>
    by_cases h : p x = true
    · obtain ⟨c, hc⟩ := ih
      refine ⟨x :: c, ?_⟩
      rw [List.dropWhile_cons, if_pos h]
      exact congrArg (x :: ·) hc
    · refine ⟨[], ?_⟩
      rw [List.dropWhile_cons, if_neg (by simpa using h)]
      rfl

/-- dropWhile is idempotent. -/
theorem dropWhile_self (p : Char → Bool) (l : List Char) :
    (l.dropWhile p).dropWhile p = l.dropWhile p := by
  induction l with
  | nil => rfl
  | cons x xs ih =>
    by_cases h : p x = true
    · rw [List.dropWhile_cons, if_pos h]; exact ih
    · rw [List.dropWhile_cons, if_neg (by simpa using h),
        List.dropWhile_cons, if_neg (by simpa using h)]

/-- A nonempty dropWhile fixed point starts with an element failing the
predicate. -/
theorem head_false_of_dropWhile_eq_self (p : Char → Bool) (x : Char) (xs : List Char)
    (h : (x :: xs).dropWhile p = x :: xs) : p x = false := by
  by_contra hb
  rw [Bool.not_eq_false] at hb
  rw [List.dropWhile_cons, if_pos hb] at h
  have hlen := length_dropWhile_le_self p xs
  rw [h] at hlen
  simp at hlen

/-- A left factor of a dropWhile fixed point is itself a fixed point. -/
theorem dropWhile_eq_self_left (p : Char → Bool) (t c : List Char)
    (h : (t ++ c).dropWhile p = t ++ c) : t.dropWhile p = t := by
  cases t with
  | nil => rfl
  | cons x t2 =>
    have hx : p x = false := head_false_of_dropWhile_eq_self p x (t2 ++ c) h
    rw [List.dropWhile_cons, if_neg (by simp [hx])]

/-- trimSpace is idempotent. -/
theorem trimSpace_idem (l : List Char) : trimSpace (trimSpace l) = trimSpace l := by
  unfold trimSpace
  obtain ⟨c, hc⟩ := exists_dropWhile_append isSpaceChar (l.dropWhile isSpaceChar).reverse
  have ha : (l.dropWhile isSpaceChar).dropWhile isSpaceChar = l.dropWhile isSpaceChar :=
    dropWhile_self isSpaceChar l
  have haeq : l.dropWhile isSpaceChar =
      ((l.dropWhile isSpaceChar).reverse.dropWhile isSpaceChar).reverse ++ c.reverse := by
    have := congrArg List.reverse hc
    rw [List.reverse_reverse, List.reverse_append] at this
    exact this
  have hstepA : (((l.dropWhile isSpaceChar).reverse.dropWhile isSpaceChar).reverse).dropWhile
      isSpaceChar = ((l.dropWhile isSpaceChar).reverse.dropWhile isSpaceChar).reverse := by
    apply dropWhile_eq_self_left isSpaceChar _ c.reverse
    rw [← haeq]
    exact ha
  rw [hstepA, List.reverse_reverse, dropWhile_self]

/-- Elements of the dropWhile part come from the list. -/
theorem mem_of_mem_dropWhile (p : Char → Bool) (x : Char) (l : List Char)
    (h : x ∈ l.dropWhile p) : x ∈ l := by
  obtain ⟨c, hc⟩ := exists_dropWhile_append p l
  rw [hc]
  exact List.mem_append_right c h

/-- Elements of the trimmed list come from the list. -/
theorem mem_of_mem_trimSpace (x : Char) (l : List Char) (h : x ∈ trimSpace l) : x ∈ l := by
  unfold trimSpace at h
  rw [List.mem_reverse] at h
  have h2 := mem_of_mem_dropWhile _ _ _ h
  rw [List.mem_reverse] at h2
  exact mem_of_mem_dropWhile _ _ _ h2

/-- Without a colon the first-colon split yields nothing. -/
theorem splitFirstColon_eq_none (l : List Char) (h : ':' ∉ l) :
    splitFirstColon l = none := by
  induction l with
  | nil => rfl
  | cons c cs ih =>
    simp only [List.mem_cons, not_or] at h
    unfold splitFirstColon
    rw [if_neg (fun hc => h.1 hc.symm), ih h.2]

/-- The split cuts exactly at the first colon; colons after it stay in the
second part. -/
theorem splitFirstColon_append (u i : List Char) (h : ':' ∉ u) :
    splitFirstColon (u ++ ':' :: i) = some (u, i) := by
  induction u with
  | nil => simp [splitFirstColon]
  | cons c cs ih =>
    simp only [List.mem_cons, not_or] at h
    show splitFirstColon (c :: (cs ++ ':' :: i)) = some (c :: cs, i)
    unfold splitFirstColon
    rw [if_neg (fun hc => h.1 hc.symm), ih h.2]

/-- The piece token only depends on the pointwise behaviour of the
membership test. -/
theorem pairToken_congr (s1 s2 : List Char → Bool) (p : List Char)
    (h : ∀ u, s1 u = s2 u) : pairToken s1 p = pairToken s2 p := by
  unfold pairToken
  cases splitFirstColon (trimSpace p) with
  | none => rfl
  | some ui => simp only [h]

/-- emitAll only depends on the pointwise behaviour of the membership
test. -/
theorem emitAll_congr (s1 s2 : List Char → Bool) (ps : List (List Char))
    (h : ∀ u, s1 u = s2 u) : emitAll s1 ps = emitAll s2 ps := by
  induction ps with
  | nil => rfl
  | cons p ps ih =>
    unfold emitAll
    rw [pairToken_congr s1 s2 p h, ih]

/-- emitAll distributes over list append. -/
theorem emitAll_append (s : List Char → Bool) (l1 l2 : List (List Char)) :
    emitAll s (l1 ++ l2) = emitAll s l1 ++ emitAll s l2 := by
  induction l1 with
  | nil => rfl
  | cons p ps ih =>
    show pairToken s p ++ emitAll s (ps ++ l2) = pairToken s p ++ emitAll s ps ++ emitAll s l2
    rw [ih, List.append_assoc]

/-- Every piece token is empty or a complete mention token. -/
theorem pairToken_shape (s : List Char → Bool) (p : List Char) :
    pairToken s p = [] ∨ ∃ u i, pairToken s p = mentionToken i u := by
  unfold pairToken
  split
  · exact Or.inl rfl
  · split
    · exact Or.inl rfl
    · split
      · exact Or.inr ⟨_, _, rfl⟩
      · exact Or.inl rfl

/-- emitAll yields a concatenation of complete mention tokens. -/
theorem emitAll_tokens (s : List Char → Bool) (ps : List (List Char)) :
    ∃ toks : List (List Char × List Char),
      emitAll s ps = (toks.map (fun t => mentionToken t.1 t.2)).flatten := by
  induction ps with
  | nil => exact ⟨[], rfl⟩
  | cons p ps ih =>
    obtain ⟨toks, htoks⟩ := ih
    cases pairToken_shape s p with
    | inl h0 =>
      refine ⟨toks, ?_⟩
      show pairToken s p ++ emitAll s ps = _
      rw [h0, htoks, List.nil_append]
    | inr hex =>
      obtain ⟨u, i, hui⟩ := hex
      refine ⟨(i, u) :: toks, ?_⟩
      show pairToken s p ++ emitAll s ps = _
      rw [hui, htoks]
      rfl

/-- A nonempty concatenation of mention tokens ends with the closing tag
and its single trailing space. -/
theorem join_tokens_ends (t : List Char × List Char) (toks : List (List Char × List Char)) :
    ∃ pre, ((t :: toks).map (fun t => mentionToken t.1 t.2)).flatten = pre ++ ("</at> ").data := by
  induction toks generalizing t with
  | nil =>
    refine ⟨("<at user_id=\"").data ++ t.1 ++ ("\">").data ++ t.2, ?_⟩
    show mentionToken t.1 t.2 ++ [] = _
    unfold mentionToken
    simp [List.append_assoc]
  | cons t2 toks ih =>
    obtain ⟨pre, hpre⟩ := ih t2
    refine ⟨mentionToken t.1 t.2 ++ pre, ?_⟩
    show mentionToken t.1 t.2 ++ ((t2 :: toks).map (fun t => mentionToken t.1 t.2)).flatten = _
    rw [hpre, List.append_assoc]

/-- Whether a mapping piece fails the login-set membership test (the
piece is skipped, has no colon, or names a user outside the set). -/
def pieceMiss (logins : List (List Char)) (p : List Char) : Bool :=
  match splitFirstColon (trimSpace p) with
  | some (u, _) => !(memberOf logins (trimSpace u))
  | none => true

/-- A piece that misses the login set produces no token. -/
theorem pairToken_of_miss (logins : List (List Char)) (p : List Char)
    (h : pieceMiss logins p = true) : pairToken (memberOf logins) p = [] := by
  unfold pieceMiss at h
  unfold pairToken
  split
  · rfl
  · split
    · rfl
    · rename_i u i heq
      rw [heq] at h
      simp only [Bool.not_eq_true'] at h
      rw [if_neg (by simp [h])]

/-- When every piece misses the login set, nothing is emitted. -/
theorem emitAll_of_miss (logins : List (List Char)) (ps : List (List Char))
    (h : ps.all (pieceMiss logins) = true) : emitAll (memberOf logins) ps = [] := by
  induction ps with
  | nil => rfl
  | cons p ps ih =>
    rw [List.all_cons, Bool.and_eq_true] at h
    show pairToken (memberOf logins) p ++ emitAll (memberOf logins) ps = []
    rw [pairToken_of_miss logins p h.1, ih h.2]
    rfl

/-- The empty string resolves to no assignee records (both unmarshal
attempts fail on empty input). -/
theorem resolveRecords_nil : resolveRecords [] = none := by decide

/-! ### Claims -/

/-- Claim C1: mention tokens are produced in the order of the user-map
pairs, not in assignee order. The output of parseUsers depends on the
assignee data only through login-set membership (so reordering assignee
records cannot reorder tokens), and on the spec's concrete instance the
mapping "a:1,b:2,c:3" with assignees listing b before a yields the tokens
in mapping order a, then b. -/
theorem parseUsers_mapping_order :
    (∀ (m r1 r2 : String) (as1 as2 : List Assignee),
      resolveRecords r1.data = some as1 → resolveRecords r2.data = some as2 →
      (∀ u, memberOf (loginsOf as1) u = memberOf (loginsOf as2) u) →
      parseUsers m r1 = parseUsers m r2)
    ∧ parseUsers ("a:1,b:2,c:3") ("[\x7b\"login\":\"b\"\x7d,\x7b\"login\":\"a\"\x7d]")
        = ("<at user_id=\"1\">a</at> <at user_id=\"2\">b</at> ") := by
  constructor
  · intro m r1 r2 as1 as2 h1 h2 hmem
    have hr1 : r1.data ≠ [] := fun h => by
      rw [h, resolveRecords_nil] at h1
      exact Option.noConfusion h1
    have hr2 : r2.data ≠ [] := fun h => by
      rw [h, resolveRecords_nil] at h2
      exact Option.noConfusion h2
    unfold parseUsers parseUsersL
    by_cases hm : m.data = []
    · rw [if_pos hm, if_pos hm]
    · rw [if_neg hm, if_neg hm, if_neg hr1, if_neg hr2, h1, h2]
      exact congrArg String.mk (emitAll_congr _ _ _ hmem)
  · decide

/-- Claim C1 witness: reversing the two assignee records leaves the
output unchanged. -/
theorem parseUsers_mapping_order_witness :
    parseUsers ("a:1,b:2,c:3") ("[\x7b\"login\":\"b\"\x7d,\x7b\"login\":\"a\"\x7d]")
      = parseUsers ("a:1,b:2,c:3") ("[\x7b\"login\":\"a\"\x7d,\x7b\"login\":\"b\"\x7d]") :=
  parseUsers_mapping_order.1 _ _ _
    [⟨("b").data⟩, ⟨("a").data⟩] [⟨("a").data⟩, ⟨("b").data⟩]
    (by decide) (by decide)
    (fun u => by
      have h1 : loginsOf [⟨("b").data⟩, ⟨("a").data⟩] = [("b").data, ("a").data] := by decide
      have h2 : loginsOf [⟨("a").data⟩, ⟨("b").data⟩] = [("a").data, ("b").data] := by decide
      unfold memberOf
      rw [h1, h2]
      simp only [List.any_cons, List.any_nil]
      cases hb : (("b").data == u) <;> cases ha : (("a").data == u) <;> simp [hb, ha])

/-- Claim C3: an assignees string on which both unmarshal attempts fail
(neither an array of records nor a single record) makes parseUsers return
the empty string; the function is total, so no error reaches the caller. -/
theorem parseUsers_malformed_silent (m a : String)
    (h1 : unmarshalAssignees a.data = none) (h2 : unmarshalAssignee a.data = none) :
    parseUsers m a = ("") := by
  have hres : resolveRecords a.data = none := by
    unfold resolveRecords
    rw [h1, h2]
  unfold parseUsers parseUsersL
  by_cases hm : m.data = []
  · rw [if_pos hm]
  · rw [if_neg hm]
    by_cases ha : a.data = []
    · rw [if_pos ha]
    · rw [if_neg ha, hres]

/-- Claim C3 witness: the spec's example input is valid as neither parse,
and parseUsers silently yields the empty string on it. -/
theorem parseUsers_malformed_silent_witness :
    unmarshalAssignees (("\x7bnot json").data) = none
    ∧ unmarshalAssignee (("\x7bnot json").data) = none
    ∧ parseUsers ("x:1") ("\x7bnot json") = ("") :=
  ⟨rfl, rfl, parseUsers_malformed_silent _ _ rfl rfl⟩

/-- Claim C6: a username mapped more than once emits one token per
mapping occurrence: emitAll distributes over the pieces, each occurrence
checking the login set independently, and on mapping "a:1,a:2" with the
single assignee a the output holds two mention tokens for a, each with
its occurrence's ID. -/
theorem parseUsers_duplicate_mapping :
    (∀ (s : List Char → Bool) (l1 l2 : List (List Char)),
      emitAll s (l1 ++ l2) = emitAll s l1 ++ emitAll s l2)
    ∧ parseUsers ("a:1,a:2") ("[\x7b\"login\":\"a\"\x7d]")
        = ("<at user_id=\"1\">a</at> <at user_id=\"2\">a</at> ") :=
  ⟨emitAll_append, by decide⟩

/-- Claim C10: every parseUsers output is a concatenation of complete
mention tokens, hence either empty or ending in the closing tag followed
by exactly one space. -/
theorem parseUsers_complete_tokens (m a : String) :
    (∃ toks : List (List Char × List Char),
      (parseUsers m a).data =
        (toks.map (fun t => ("<at user_id=\"").data ++ t.1 ++ ("\">").data ++ t.2
          ++ ("</at> ").data)).flatten)
    ∧ ((parseUsers m a).data = []
        ∨ ∃ pre, (parseUsers m a).data = pre ++ ("</at> ").data) := by
  have hdata : (parseUsers m a).data = parseUsersL m.data a.data := rfl
  have hmain : ∃ toks : List (List Char × List Char),
      (parseUsers m a).data = (toks.map (fun t => mentionToken t.1 t.2)).flatten := by
    rw [hdata]
    unfold parseUsersL
    by_cases hm : m.data = []
    · rw [if_pos hm]
      exact ⟨[], rfl⟩
    · rw [if_neg hm]
      by_cases ha : a.data = []
      · rw [if_pos ha]
        exact ⟨[], rfl⟩
      · rw [if_neg ha]
        cases hres : resolveRecords a.data with
        | none => exact ⟨[], rfl⟩
        | some as => exact emitAll_tokens _ _
  obtain ⟨toks, htoks⟩ := hmain
  constructor
  · exact ⟨toks, htoks⟩
  · cases toks with
    | nil =>
      left
      rw [htoks]
      rfl
    | cons t ts =>
      right
      obtain ⟨pre, hpre⟩ := join_tokens_ends t ts
      exact ⟨pre, by rw [htoks, hpre]⟩

/-- Decoding a one-element JSON array decodes the single element and
wraps it. -/
theorem decodeAssigneeList_singleton (j : Json) :
    decodeAssigneeList [j] = match decodeAssignee j with
      | some a => some [a]
      | none => none := by
  unfold decodeAssigneeList
  cases decodeAssignee j <;> rfl

/-- Claim C2: a bare JSON object with a login field is accepted exactly
like the one-element array wrapping it: for any user-map string, an
assignees string parsing to the object and one parsing to the wrapped
array give the same parseUsers output (the resolver's array parse fails
on the bare object and falls back to the single-record parse). -/
theorem parseUsers_single_object_equiv (m s t : String) (fs : List (List Char × Json))
    (hs : parseJsonTop s.data = some (Json.obj fs))
    (_hl : fs.any (fun f => f.1 == ("login").data) = true)
    (ht : parseJsonTop t.data = some (Json.arr [Json.obj fs])) :
    parseUsers m s = parseUsers m t := by
  have hparse_nil : parseJsonTop ([] : List Char) = none := rfl
  have hsne : s.data ≠ [] := fun h => by
    rw [h, hparse_nil] at hs
    exact Option.noConfusion hs
  have htne : t.data ≠ [] := fun h => by
    rw [h, hparse_nil] at ht
    exact Option.noConfusion ht
  have hus : unmarshalAssignees s.data = none := by
    unfold unmarshalAssignees
    rw [hs]
    rfl
  have hut : unmarshalAssignees t.data = decodeAssigneeList [Json.obj fs] := by
    unfold unmarshalAssignees
    rw [ht]
    rfl
  have hos : unmarshalAssignee s.data = decodeAssignee (Json.obj fs) := by
    unfold unmarshalAssignee
    rw [hs]
  have hot : unmarshalAssignee t.data = none := by
    unfold unmarshalAssignee
    rw [ht]
    rfl
  unfold parseUsers parseUsersL
  by_cases hm : m.data = []
  · rw [if_pos hm, if_pos hm]
  · rw [if_neg hm, if_neg hm, if_neg hsne, if_neg htne]
    unfold resolveRecords
    rw [hus, hut, hos, hot, decodeAssigneeList_singleton]
    cases decodeAssignee (Json.obj fs) <;> rfl

/-- Claim C2 witness: the bare object and the wrapped array produce the
same output on a concrete mapping. -/
theorem parseUsers_single_object_equiv_witness :
    parseUsers ("a:1") ("\x7b\"login\":\"a\"\x7d")
      = parseUsers ("a:1") ("[\x7b\"login\":\"a\"\x7d]") :=
  parseUsers_single_object_equiv _ _ _ [((("login").data), Json.str (("a").data))]
    rfl (by decide) rfl

/-- Claim C4: per-piece processing of the user-map string: a piece is
trimmed before any further handling; an empty trimmed piece is skipped;
the split is at the first colon only, so colons inside the ID part stay
in the ID; a colon-free piece is skipped; username and ID are trimmed
individually before membership testing and emission; a skipped piece
leaves the tokens of the other pieces untouched. -/
theorem parseUsers_piece_processing :
    (∀ (s : List Char → Bool) (p : List Char), pairToken s p = pairToken s (trimSpace p))
    ∧ (∀ (s : List Char → Bool) (p : List Char), trimSpace p = [] → pairToken s p = [])
    ∧ (∀ u i : List Char, ':' ∉ u → splitFirstColon (u ++ ':' :: i) = some (u, i))
    ∧ (∀ (s : List Char → Bool) (p : List Char), ':' ∉ p → pairToken s p = [])
    ∧ (∀ (s : List Char → Bool) (p u i : List Char),
        splitFirstColon (trimSpace p) = some (u, i) → trimSpace p ≠ [] →
        pairToken s p =
          if s (trimSpace u) = true then mentionToken (trimSpace i) (trimSpace u) else [])
    ∧ (∀ (s : List Char → Bool) (ps1 ps2 : List (List Char)) (bad : List Char),
        pairToken s bad = [] → emitAll s (ps1 ++ bad :: ps2) = emitAll s (ps1 ++ ps2)) := by
  refine ⟨?_, ?_, ?_, ?_, ?_, ?_⟩
  · intro s p
    unfold pairToken
    rw [trimSpace_idem]
  · intro s p h
    unfold pairToken
    rw [if_pos h]
  · exact fun u i h => splitFirstColon_append u i h
  · intro s p h
    have hnc : ':' ∉ trimSpace p := fun hin => h (mem_of_mem_trimSpace _ _ hin)
    unfold pairToken
    rw [splitFirstColon_eq_none _ hnc]
    split
    · rfl
    · rfl
  · intro s p u i hsp hne
    unfold pairToken
    rw [if_neg hne, hsp]
  · intro s ps1 ps2 bad hbad
    rw [emitAll_append, emitAll_append]
    show emitAll s ps1 ++ (pairToken s bad ++ emitAll s ps2) = _
    rw [hbad, List.nil_append]

/-- Claim C4 witness: concrete instances of the piece-processing rules. -/
theorem parseUsers_piece_processing_witness :
    pairToken (memberOf [("a").data]) ((" a:1 ").data)
        = pairToken (memberOf [("a").data]) (trimSpace ((" a:1 ").data))
    ∧ pairToken (memberOf [("a").data]) (("   ").data) = []
    ∧ splitFirstColon (("a").data ++ ':' :: ("1:2").data)
        = some (("a").data, ("1:2").data)
    ∧ pairToken (memberOf [("a").data]) (("ab").data) = []
    ∧ pairToken (memberOf [("a").data]) (("a:1").data)
        = (if memberOf [("a").data] (trimSpace (("a").data)) = true
            then mentionToken (trimSpace (("1").data)) (trimSpace (("a").data)) else [])
    ∧ emitAll (memberOf [("a").data]) ([(" a:1").data] ++ ("b").data :: [("a:2").data])
        = emitAll (memberOf [("a").data]) ([(" a:1").data] ++ [("a:2").data]) :=
  ⟨parseUsers_piece_processing.1 _ _,
    parseUsers_piece_processing.2.1 _ _ (by decide),
    parseUsers_piece_processing.2.2.1 _ _ (by decide),
    parseUsers_piece_processing.2.2.2.1 _ _ (by decide),
    parseUsers_piece_processing.2.2.2.2.1 _ _ _ _ (by decide) (by decide),
    parseUsers_piece_processing.2.2.2.2.2 _ _ _ _ (by decide)⟩

/-- Claim C5: every emitted token has exactly the wire shape: opening tag
carrying the ID, username as display text, closing tag, one trailing
space; the username and ID are embedded verbatim (no XML escaping), as
the concrete instance with a quote and an angle bracket shows. -/
theorem parseUsers_token_wire_shape :
    (∀ (s : List Char → Bool) (p : List Char),
      pairToken s p = []
      ∨ ∃ u i, pairToken s p
          = ("<at user_id=\"").data ++ i ++ ("\">").data ++ u ++ ("</at> ").data)
    ∧ (∀ (s : List Char → Bool) (p u i : List Char),
        splitFirstColon (trimSpace p) = some (u, i) → trimSpace p ≠ [] →
        s (trimSpace u) = true →
        pairToken s p
          = ("<at user_id=\"").data ++ trimSpace i ++ ("\">").data ++ trimSpace u
            ++ ("</at> ").data)
    ∧ parseUsers ("a\"b:1<2") ("\x7b\"login\":\"a\\\"b\"\x7d")
        = ("<at user_id=\"1<2\">a\"b</at> ") := by
  refine ⟨?_, ?_, by decide⟩
  · intro s p
    cases pairToken_shape s p with
    | inl h => exact Or.inl h
    | inr h =>
      obtain ⟨u, i, hui⟩ := h
      exact Or.inr ⟨u, i, hui⟩
  · intro s p u i hsp hne hmem
    have hpt : pairToken s p
        = if s (trimSpace u) = true then mentionToken (trimSpace i) (trimSpace u) else [] := by
      unfold pairToken
      rw [if_neg hne, hsp]
    rw [hpt, if_pos hmem]
    rfl

/-- Claim C5 witness: a concrete piece in the login set emits the exact
wire shape with the trimmed parts embedded verbatim. -/
theorem parseUsers_token_wire_shape_witness :
    pairToken (memberOf [("a").data]) (("a:1").data)
      = ("<at user_id=\"").data ++ trimSpace (("1").data) ++ ("\">").data
        ++ trimSpace (("a").data) ++ ("</at> ").data :=
  parseUsers_token_wire_shape.2.1 _ _ _ _ (by decide) (by decide) (by decide)

/-- Claim C7: when the resolved login set shares no username with any
valid mapping pair (in particular when it is empty), parseUsers yields
exactly the empty string, with no separator artifacts. -/
theorem parseUsers_no_shared_login_empty (m a : String) (as : List Assignee)
    (hres : resolveRecords a.data = some as)
    (hmiss : (splitChar ',' m.data).all (pieceMiss (loginsOf as)) = true) :
    parseUsers m a = ("") := by
  have hane : a.data ≠ [] := fun h => by
    rw [h, resolveRecords_nil] at hres
    exact Option.noConfusion hres
  unfold parseUsers parseUsersL
  by_cases hm : m.data = []
  · rw [if_pos hm]
  · rw [if_neg hm, if_neg hane, hres]
    show String.mk (emitAll (memberOf (loginsOf as)) (splitChar ',' m.data)) = ("")
    rw [emitAll_of_miss _ _ hmiss]

/-- Claim C7 witness: an empty assignee array gives an empty login set
and the resolver yields the empty string on a well-formed mapping. -/
theorem parseUsers_no_shared_login_empty_witness :
    resolveRecords (("[]").data) = some []
    ∧ parseUsers ("a:1,b:2") ("[]") = ("") :=
  ⟨by decide, parseUsers_no_shared_login_empty _ _ [] (by decide) (by decide)⟩

/-- Claim C8: getEnv checks the INPUT_-wrapped name (key upper-cased,
hyphens to underscores, prefixed INPUT_) first, falls back to the plain
upper-cased name, the first non-empty value wins, and both empty yields
the empty string. -/
theorem getEnv_lookup_order :
    (∀ (env : List Char → List Char) (key : List Char),
      env (inputKeyOf key) ≠ [] → getEnv env key = env (inputKeyOf key))
    ∧ (∀ (env : List Char → List Char) (key : List Char),
      env (inputKeyOf key) = [] → getEnv env key = env (goToUpper key))
    ∧ (∀ (env : List Char → List Char) (key : List Char),
      env (inputKeyOf key) = [] → env (goToUpper key) = [] → getEnv env key = [])
    ∧ inputKeyOf (("msg-type").data) = ("INPUT_MSG_TYPE").data := by
  refine ⟨?_, ?_, ?_, by decide⟩
  · intro env key h
    unfold getEnv
    rw [if_pos h]
  · intro env key h
    unfold getEnv
    rw [if_neg (by simp [h])]
  · intro env key h1 h2
    unfold getEnv
    rw [if_neg (by simp [h1]), h2]

/-- Claim C8 witness: the wrapped name wins when set, the plain name is
the fallback, and an empty environment yields the empty string. -/
theorem getEnv_lookup_order_witness :
    getEnv (fun k => if k = ("INPUT_BOT_TOKEN").data then ("t1").data else [])
        (("bot_token").data) = ("t1").data
    ∧ getEnv (fun k => if k = ("BOT_TOKEN").data then ("t2").data else [])
        (("bot_token").data) = ("t2").data
    ∧ getEnv (fun _ => []) (("bot_token").data) = [] :=
  ⟨(getEnv_lookup_order.1 _ _ (by decide)).trans (by decide),
    (getEnv_lookup_order.2.1 _ _ (by decide)).trans (by decide),
    getEnv_lookup_order.2.2.1 _ _ (by decide) (by decide)⟩

/-- Claim C9: the run succeeds (success outcome, exit status 0) exactly
when the HTTP status is 200 and the embedded response code is 0; any
other combination is a fatal error carrying the embedded code and
message, with exit status 1. -/
theorem checkResponse_success_iff :
    (∀ (st : Nat) (resp : FeishuResponse),
      checkResponse st resp = RunOutcome.success ↔ st = 200 ∧ resp.code = 0)
    ∧ (∀ (st : Nat) (resp : FeishuResponse),
      ¬(st = 200 ∧ resp.code = 0) →
      checkResponse st resp = RunOutcome.fatal resp.code resp.msg
        ∧ exitCodeOf (checkResponse st resp) = 1)
    ∧ (∀ (st : Nat) (resp : FeishuResponse),
      exitCodeOf (checkResponse st resp) = 0 ↔ st = 200 ∧ resp.code = 0) := by
  have hfatal : ∀ (st : Nat) (resp : FeishuResponse), ¬(st = 200 ∧ resp.code = 0) →
      checkResponse st resp = RunOutcome.fatal resp.code resp.msg := by
    intro st resp h
    rw [not_and_or] at h
    unfold checkResponse
    rw [if_pos h]
  have hsucc : ∀ (st : Nat) (resp : FeishuResponse), st = 200 ∧ resp.code = 0 →
      checkResponse st resp = RunOutcome.success := by
    intro st resp h
    unfold checkResponse
    rw [if_neg (by push_neg; exact ⟨h.1, h.2⟩)]
  refine ⟨fun st resp => ?_, fun st resp h => ?_, fun st resp => ?_⟩
  · constructor
    · intro hs
      by_contra hn
      have hf := hfatal st resp hn
      rw [hs] at hf
      exact RunOutcome.noConfusion hf
    · exact hsucc st resp
  · refine ⟨hfatal st resp h, ?_⟩
    rw [hfatal st resp h]
    rfl
  · constructor
    · intro he
      by_contra hn
      rw [hfatal st resp hn] at he
      simp [exitCodeOf] at he
    · intro h
      rw [hsucc st resp h]
      rfl

/-- Claim C9 witness: HTTP 200 with code 0 succeeds; code 19001 or HTTP
404 is fatal with exit status 1, carrying the embedded code and
message. -/
theorem checkResponse_success_iff_witness :
    checkResponse 200 ⟨0, ("ok").data⟩ = RunOutcome.success
    ∧ (checkResponse 200 ⟨19001, ("bad token").data⟩
        = RunOutcome.fatal 19001 (("bad token").data)
      ∧ exitCodeOf (checkResponse 200 ⟨19001, ("bad token").data⟩) = 1)
    ∧ exitCodeOf (checkResponse 404 ⟨0, ("ok").data⟩) = 1 :=
  ⟨(checkResponse_success_iff.1 200 _).mpr (by decide),
    checkResponse_success_iff.2.1 200 _ (by decide),
    (checkResponse_success_iff.2.1 404 ⟨0, ("ok").data⟩ (by decide)).2⟩
